import Mathlib

/-!
Verification of the Perplexity SSE translation layer
(`src/models/perplexity_models.py`, `src/services/perplexity_adapter.py`,
`src/services/chunk_extractor.py`, `src/services/stream_formatter.py`).

The Python code is shallowly embedded: dynamically-typed JSON-like values
become the inductive `PyVal`, in-place mutation becomes explicit state
passing, and a Python method that can raise returns its final state
together with `Except PyErr`.
-/

set_option maxRecDepth 4000

namespace PerplexityScrape

/-- Model of a dynamically-typed Python/JSON value as it appears in
`JSONPatch.value` (`Optional[Any]`).  `PyVal.none` is Python `None`;
dicts are association lists with (unique) string keys. -/
inductive PyVal where
  | none : PyVal
  | bool : Bool → PyVal
  | int : Int → PyVal
  | str : String → PyVal
  | list : List PyVal → PyVal
  | dict : List (String × PyVal) → PyVal

mutual

/-- Model of Python `repr` for the values above (string escaping inside
reprs is not modelled; no claim evaluates `repr` on a string containing a
quote). -/
def pyRepr : PyVal → String
  | .none => "None"
  | .bool true => "True"
  | .bool false => "False"
  | .int n => toString n
  | .str s => "\x27" ++ s ++ "\x27"
  | .list xs => "[" ++ String.intercalate ", " (pyReprList xs) ++ "]"
  | .dict kvs => "\x7b" ++ String.intercalate ", " (pyReprKVs kvs) ++ "\x7d"

/-- Reprs of the elements of a Python list, in order. -/
def pyReprList : List PyVal → List String
  | [] => []
  | v :: vs => pyRepr v :: pyReprList vs

/-- Reprs of the key/value pairs of a Python dict, in order. -/
def pyReprKVs : List (String × PyVal) → List String
  | [] => []
  | (k, v) :: kvs => ("\x27" ++ k ++ "\x27: " ++ pyRepr v) :: pyReprKVs kvs

end

/-- Model of Python `str()`: identity on strings, `repr` otherwise
(matches CPython for `None`, `bool`, `int`, `list`, `dict`). -/
def pyStr : PyVal → String
  | .str s => s
  | v => pyRepr v

/-- Model of Python truthiness (`bool(v)`). -/
def pyTruthy : PyVal → Bool
  | .none => false
  | .bool b => b
  | .int n => n != 0
  | .str s => s != ""
  | .list xs => !xs.isEmpty
  | .dict kvs => !kvs.isEmpty

/-- The exceptions the embedded code can raise. -/
inductive PyErr where
  | typeError : PyErr
deriving DecidableEq

instance instDecEqExcept {ε α : Type} [DecidableEq ε] [DecidableEq α] :
    DecidableEq (Except ε α) := fun x y =>
  match x, y with
  | .ok a, .ok b =>
    if h : a = b then .isTrue (by rw [h]) else .isFalse (by simp [h])
  | .error a, .error b =>
    if h : a = b then .isTrue (by rw [h]) else .isFalse (by simp [h])
  | .ok _, .error _ => .isFalse (by simp)
  | .error _, .ok _ => .isFalse (by simp)

/-- Model of Python iteration (`for x in v`): lists yield their elements,
strings their characters (as 1-character strings), dicts their keys;
`None`, booleans and integers are not iterable and raise `TypeError`. -/
def pyIter : PyVal → Except PyErr (List PyVal)
  | .list xs => .ok xs
  | .str s => .ok (s.toList.map fun c => PyVal.str (String.mk [c]))
  | .dict kvs => .ok (kvs.map fun kv => PyVal.str kv.1)
  | _ => .error .typeError

/-- Model of `"".join(elems)`: succeeds with the concatenation when every
element is a string, raises `TypeError` otherwise. -/
def pyJoin : List PyVal → Except PyErr String
  | [] => .ok ""
  | .str s :: vs =>
    match pyJoin vs with
    | .ok rest => .ok (s ++ rest)
    | .error e => .error e
  | _ :: _ => .error .typeError

/-- Model of `dict.get(key, default)` on a `PyVal.dict` (first binding of
the key; keys of a Python dict are unique). -/
def dictGet (v : PyVal) (key : String) (dflt : PyVal) : PyVal :=
  match v with
  | .dict kvs =>
    match kvs.find? (fun kv => kv.1 = key) with
    | some kv => kv.2
    | Option.none => dflt
  | _ => dflt

/-- True exactly when the value is a Python dict (`isinstance(v, dict)`). -/
def isDict : PyVal → Bool
  | .dict _ => true
  | _ => false

/-- True exactly when the value is Python `None` (`v is None`). -/
def isPyNone : PyVal → Bool
  | .none => true
  | _ => false

/-- Model of the Python comparison `v == "DONE"` (only the string
`"DONE"` compares equal to it). -/
def isDoneValue : PyVal → Bool
  | .str "DONE" => true
  | _ => false

/-- Character-list helper: `pat` occurs at the start of `s`. -/
def startsWithL : List Char → List Char → Bool
  | [], _ => true
  | _ :: _, [] => false
  | p :: ps, c :: cs => p == c && startsWithL ps cs

/-- Character-list helper: `pat` occurs somewhere inside `s`. -/
def containsSubL (pat : List Char) : List Char → Bool
  | [] => startsWithL pat []
  | c :: cs => startsWithL pat (c :: cs) || containsSubL pat cs

/-- Model of the Python substring test `pat in s`. -/
def containsSub (pat s : String) : Bool :=
  containsSubL pat.toList s.toList

/-- The `op` field of a JSON Patch (`Literal["add", "replace", "remove"]`,
`perplexity_models.py::JSONPatch`). -/
inductive POp where
  | add : POp
  | replace : POp
  | remove : POp
deriving DecidableEq

/-- Embedding of `JSONPatch` (`perplexity_models.py`): a single RFC-6902
operation.  An absent `value` is `PyVal.none` (the pydantic default). -/
structure JSONPatch where
  op : POp
  path : String
  value : PyVal

/-- Embedding of `ChunkAggregator` (`perplexity_models.py`): the ordered
fragment list and the completion flag. -/
structure ChunkAggregator where
  chunks : List String
  is_complete : Bool
deriving DecidableEq

/-- A freshly constructed `ChunkAggregator()`. -/
def ChunkAggregator.init : ChunkAggregator := ⟨[], false⟩

/-- The text stored for an `add` patch:
`str(patch.value) if patch.value is not None else ""`. -/
def chunkTextOf (v : PyVal) : String :=
  if isPyNone v then "" else pyStr v

/-- Embedding of `ChunkAggregator.apply_patch`.  The Python method mutates
`self` and either returns `Optional[str]` or raises; here it returns the
final aggregator state together with `Except PyErr (Option String)`.
Mirrors the source line by line: the add branch tests the SUBSTRING
`"/chunks/" in patch.path`; the root-replace branch appends `str(chunk)`
for each element of `value.get("chunks", [])` and then evaluates
`"".join(initial_chunks) if initial_chunks else None`, where the join is
over the RAW elements and raises `TypeError` on a non-string element. -/
def ChunkAggregator.apply_patch (agg : ChunkAggregator) (patch : JSONPatch) :
    ChunkAggregator × Except PyErr (Option String) :=
  if patch.op = .add ∧ containsSub "/chunks/" patch.path then
    let chunk_text := chunkTextOf patch.value
    ({ agg with chunks := agg.chunks ++ [chunk_text] }, .ok (some chunk_text))
  else if patch.op = .replace then
    if patch.path = "/progress" ∧ isDoneValue patch.value then
      ({ agg with is_complete := true }, .ok Option.none)
    else if patch.path = "" ∧ isDict patch.value then
      let initial_chunks := dictGet patch.value "chunks" (.list [])
      match pyIter initial_chunks with
      | .error e => (agg, .error e)
      | .ok elems =>
        let agg2 := { agg with chunks := agg.chunks ++ elems.map pyStr }
        if pyTruthy initial_chunks then
          match pyJoin elems with
          | .ok s => (agg2, .ok (some s))
          | .error e => (agg2, .error e)
        else
          (agg2, .ok Option.none)
    else (agg, .ok Option.none)
  else (agg, .ok Option.none)

/-- Concatenation of a list of strings in order (`"".join(chunks)`). -/
def joinAll : List String → String
  | [] => ""
  | s :: l => s ++ joinAll l

/-- Embedding of `ChunkAggregator.get_full_text`: concatenation of the
stored fragments in order. -/
def ChunkAggregator.get_full_text (agg : ChunkAggregator) : String :=
  joinAll agg.chunks

/-- Driver applying a list of patches in order to one aggregator
(`for patch in patches: agg.apply_patch(patch)`); a raised exception
aborts the loop, leaving the state mutated so far. -/
def applyAll (agg : ChunkAggregator) : List JSONPatch → ChunkAggregator
  | [] => agg
  | p :: ps =>
    match agg.apply_patch p with
    | (agg2, .ok _) => applyAll agg2 ps
    | (agg2, .error _) => agg2

/-- An `add` patch at path `/chunks/<i>` carrying a string value, the
shape the upstream emits for one streamed chunk. -/
def chunkAddPatch (i : Nat) (v : String) : JSONPatch :=
  ⟨.add, "/chunks/" ++ toString i, .str v⟩

lemma toList_append (p s : String) : (p ++ s).toList = p.toList ++ s.toList :=
  String.data_append p s

lemma startsWithL_append_self (xs ys : List Char) : startsWithL xs (xs ++ ys) = true := by
  induction xs with
  | nil => rfl
  | cons c cs ih => simp [startsWithL, ih]

lemma containsSubL_of_startsWithL {pat s : List Char} (h : startsWithL pat s = true) :
    containsSubL pat s = true := by
  cases s with
  | nil => simpa [containsSubL] using h
  | cons c cs => simp [containsSubL, h]

lemma containsSub_self_append (p s : String) : containsSub p (p ++ s) = true := by
  unfold containsSub
  rw [toList_append]
  exact containsSubL_of_startsWithL (startsWithL_append_self _ _)

lemma apply_patch_add_true {agg : ChunkAggregator} {p : JSONPatch}
    (hop : p.op = .add) (hpath : containsSub "/chunks/" p.path = true) :
    agg.apply_patch p =
      ({ agg with chunks := agg.chunks ++ [chunkTextOf p.value] },
        .ok (some (chunkTextOf p.value))) := by
  simp [ChunkAggregator.apply_patch, hop, hpath]

lemma apply_patch_add_false {agg : ChunkAggregator} {p : JSONPatch}
    (hop : p.op = .add) (hpath : containsSub "/chunks/" p.path = false) :
    agg.apply_patch p = (agg, .ok Option.none) := by
  simp [ChunkAggregator.apply_patch, hop, hpath]

lemma applyAll_chunkAdds (agg : ChunkAggregator) (ivs : List (Nat × String)) :
    (applyAll agg (ivs.map fun q => chunkAddPatch q.1 q.2)).chunks
      = agg.chunks ++ ivs.map Prod.snd := by
  induction ivs generalizing agg with
  | nil => simp [applyAll]
  | cons q qs ih =>
    have hpath : containsSub "/chunks/" (chunkAddPatch q.1 q.2).path = true := by
      simpa [chunkAddPatch] using containsSub_self_append "/chunks/" (toString q.1)
    have h : agg.apply_patch (chunkAddPatch q.1 q.2) =
        ({ agg with chunks := agg.chunks ++ [q.2] }, .ok (some q.2)) := by
      rw [apply_patch_add_true rfl hpath]
      simp [chunkAddPatch, chunkTextOf, isPyNone, pyStr]
    simp [applyAll, h, ih]

/-- C1: refuted as stated — `apply_patch` CAN raise.  On a `replace` at
root path whose `chunks` list holds a non-string element, the loop first
appends `str(1) = "1"` to the fragment list and then
`"".join(initial_chunks)` raises `TypeError` on the raw integer element
(the spec's graceful-degradation policy and the branch's own per-element
`str(chunk)` show the join over the raw list is a slip). -/
theorem apply_patch_raises_typeerror :
    ChunkAggregator.init.apply_patch ⟨.replace, "", .dict [("chunks", .list [.int 1])]⟩ =
      (⟨["1"], false⟩, .error .typeError) := by decide

/-- C2, counterexample: an `add` whose path merely CONTAINS `/chunks/` in
its interior (here `/a/chunks/0`) does append to the fragment list,
because the code tests `"/chunks/" in patch.path` (substring), not the
`/chunks/<index>` pattern — the claim says such a patch has no effect. -/
theorem apply_patch_interior_path_cex :
    (ChunkAggregator.init.apply_patch ⟨.add, "/a/chunks/0", .str "x"⟩).1.chunks ≠
      ChunkAggregator.init.chunks := by decide

/-- C2, amended: for every `add` patch, `apply_patch` appends
`str(value)` (empty string when the value is `None`) and returns that
string exactly when the path contains `"/chunks/"` as a substring; when
the path does not contain that substring the patch has no effect and
nothing is returned. -/
theorem apply_patch_add_characterization (agg : ChunkAggregator) (p : JSONPatch)
    (hop : p.op = .add) :
    (containsSub "/chunks/" p.path = true →
      agg.apply_patch p =
        ({ agg with chunks := agg.chunks ++ [chunkTextOf p.value] },
          .ok (some (chunkTextOf p.value)))) ∧
    (containsSub "/chunks/" p.path = false →
      agg.apply_patch p = (agg, .ok Option.none)) :=
  ⟨fun h => apply_patch_add_true hop h, fun h => apply_patch_add_false hop h⟩

/-- Witness for the amended C2, at a matching and a non-matching path. -/
theorem apply_patch_add_characterization_witness :
    ChunkAggregator.init.apply_patch ⟨.add, "/chunks/0", .str "hi"⟩ =
      (⟨["hi"], false⟩, .ok (some "hi")) ∧
    ChunkAggregator.init.apply_patch ⟨.add, "/nope", .str "hi"⟩ =
      (ChunkAggregator.init, .ok Option.none) := by
  constructor
  · have h := (apply_patch_add_characterization ChunkAggregator.init
      ⟨.add, "/chunks/0", .str "hi"⟩ rfl).1 (by decide)
    rw [h]; decide
  · exact (apply_patch_add_characterization ChunkAggregator.init
      ⟨.add, "/nope", .str "hi"⟩ rfl).2 (by decide)

/-- C3: refuted as stated for non-string chunk elements — on a root
`replace` with `chunks = ["a", 2]` the code appends `"a"` and `"2"` to
the fragment list (per-element `str`) but then raises `TypeError` from
`"".join` over the raw list instead of returning `"a2"`; the spec's
wording (return the concatenation of the stringified fragments) is the
evident intent. -/
theorem apply_patch_initial_chunks_raises :
    ChunkAggregator.init.apply_patch
        ⟨.replace, "", .dict [("chunks", .list [.str "a", .int 2])]⟩ =
      (⟨["a", "2"], false⟩, .error .typeError) := by decide

/-- C5: order preservation — applying `add` patches at paths
`/chunks/<i>` with string values `v1..vn`, in order, to a fresh
aggregator makes `get_full_text()` the concatenation `v1+...+vn`. -/
theorem chunk_add_order_preserved (ivs : List (Nat × String)) :
    (applyAll ChunkAggregator.init
        (ivs.map fun q => chunkAddPatch q.1 q.2)).get_full_text
      = joinAll (ivs.map Prod.snd) := by
  simp [ChunkAggregator.get_full_text, applyAll_chunkAdds, ChunkAggregator.init]

/-- Embedding of `MessageRole` (`openai_models.py`). -/
inductive MessageRole where
  | system : MessageRole
  | user : MessageRole
  | assistant : MessageRole
deriving DecidableEq

/-- Embedding of `ChatMessage` (`openai_models.py`); the optional `name`
field is never read by the adapter and is omitted. -/
structure ChatMessage where
  role : MessageRole
  content : String
deriving DecidableEq

/-- One dialogue line of `format_messages_as_query`:
`f"{role_prefix}: {msg.content}"` with `role_prefix = "User" if
msg.role == USER else "Assistant"` (only called on non-system roles). -/
def renderMsg (m : ChatMessage) : String :=
  (if m.role = .user then "User" else "Assistant") ++ ": " ++ m.content

/-- The adapter's message loop: threads `system_message` (overwritten by
each system message) and the growing `conversation` list. -/
def scanMessages : List ChatMessage → Option String → List String →
    Option String × List String
  | [], sys, conv => (sys, conv)
  | m :: rest, sys, conv =>
    if m.role = .system then scanMessages rest (some m.content) conv
    else scanMessages rest sys (conv ++ [renderMsg m])

/-- The `parts` contributed by the system message: `if system_message:`
is Python truthiness, so both `None` and the empty string contribute
nothing. -/
def contextParts : Option String → List String
  | some s => if s = "" then [] else ["[Context: " ++ s ++ "]"]
  | Option.none => []

/-- Final assembly of `format_messages_as_query`: append the
newline-joined conversation when non-empty, then
`"\n\n".join(parts) if parts else ""`. -/
def assembleQuery (parts1 conversation : List String) : String :=
  let parts :=
    if conversation.isEmpty then parts1
    else parts1 ++ [String.intercalate "\n" conversation]
  if parts.isEmpty then "" else String.intercalate "\n\n" parts

/-- Embedding of `PerplexityAdapter.format_messages_as_query`
(`perplexity_adapter.py`): the fast path fires only when the whole list
is a single user message (`len(messages) == 1 and messages[0].role ==
MessageRole.USER`). -/
def format_messages_as_query (messages : List ChatMessage) : String :=
  let sc := scanMessages messages Option.none []
  match messages with
  | [m] =>
    if m.role = .user then m.content
    else assembleQuery (contextParts sc.1) sc.2
  | _ => assembleQuery (contextParts sc.1) sc.2

/-- Content of the last system message of the list, if any (the value
`system_message` holds after the adapter's loop). -/
def lastSystemContent : List ChatMessage → Option String
  | [] => Option.none
  | m :: rest =>
    match lastSystemContent rest with
    | some s => some s
    | Option.none => if m.role = .system then some m.content else Option.none

/-- The non-system messages rendered as dialogue lines, in order. -/
def dialogueLines : List ChatMessage → List String
  | [] => []
  | m :: rest =>
    if m.role = .system then dialogueLines rest
    else renderMsg m :: dialogueLines rest

lemma scanMessages_eq (msgs : List ChatMessage) (sys : Option String)
    (conv : List String) :
    scanMessages msgs sys conv =
      ((match lastSystemContent msgs with
        | some s => some s
        | Option.none => sys),
       conv ++ dialogueLines msgs) := by
  induction msgs generalizing sys conv with
  | nil => simp [scanMessages, lastSystemContent, dialogueLines]
  | cons m rest ih =>
    by_cases hm : m.role = .system
    · simp only [scanMessages, hm, if_pos, ih, lastSystemContent, dialogueLines, if_true]
      cases lastSystemContent rest <;> simp [hm]
    · simp only [scanMessages, hm, if_neg, ih, lastSystemContent, dialogueLines, if_false]
      cases lastSystemContent rest <;> simp [hm]

lemma scanMessages_closed (messages : List ChatMessage) :
    scanMessages messages Option.none [] =
      (lastSystemContent messages, dialogueLines messages) := by
  rw [scanMessages_eq]
  cases lastSystemContent messages <;> simp

lemma format_eq_assemble (messages : List ChatMessage)
    (hns : ∀ m, messages = [m] → ¬ m.role = .user) :
    format_messages_as_query messages =
      assembleQuery (contextParts (lastSystemContent messages))
        (dialogueLines messages) := by
  cases messages with
  | nil => simp [format_messages_as_query, scanMessages_closed]
  | cons m rest =>
    cases rest with
    | nil =>
      have hu : ¬ m.role = .user := hns m rfl
      simp [format_messages_as_query, scanMessages_closed, hu]
    | cons m2 rest2 =>
      simp [format_messages_as_query, scanMessages_closed]

/-- C4, counterexample: a list with exactly one user message and no
system message, but also an assistant message, does NOT return the user
content verbatim — the fast path requires `len(messages) == 1`.  Here
the output is `"User: hi\nAssistant: yo"`. -/
theorem format_single_user_verbatim_cex :
    format_messages_as_query [⟨.user, "hi"⟩, ⟨.assistant, "yo"⟩] ≠ "hi" := by decide

/-- C4, amended: (i) a message list that IS exactly one user message (and
nothing else) returns its content verbatim; (ii) the empty list returns
the empty string; (iii) every other list returns the assembly of the
`[Context: ...]` line — present only when the last system message's
content is non-empty — blank-line-joined with the newline-joined
`User:`/`Assistant:` renderings of the non-system messages in order. -/
theorem format_messages_characterization (messages : List ChatMessage) :
    (messages = [] → format_messages_as_query messages = "") ∧
    (∀ m, messages = [m] → m.role = .user →
      format_messages_as_query messages = m.content) ∧
    ((∀ m, messages = [m] → ¬ m.role = .user) →
      format_messages_as_query messages =
        assembleQuery (contextParts (lastSystemContent messages))
          (dialogueLines messages)) := by
  refine ⟨?_, ?_, fun h => format_eq_assemble messages h⟩
  · intro h; subst h; rfl
  · intro m hm hu; subst hm; simp [format_messages_as_query, hu]

/-- Witness for the amended C4: the fast path and the empty list. -/
theorem format_messages_characterization_witness :
    format_messages_as_query [⟨.user, "What is 2+2?"⟩] = "What is 2+2?" ∧
    format_messages_as_query [] = "" :=
  ⟨(format_messages_characterization [⟨.user, "What is 2+2?"⟩]).2.1
      ⟨.user, "What is 2+2?"⟩ rfl rfl,
    (format_messages_characterization []).1 rfl⟩

/-- True when the list holds at least one system message. -/
def hasSystem : List ChatMessage → Bool
  | [] => false
  | m :: rest => m.role == .system || hasSystem rest

/-- Number of system messages in the list. -/
def countSystem : List ChatMessage → Nat
  | [] => 0
  | m :: rest => (if m.role = .system then 1 else 0) + countSystem rest

/-- The list with every system message except the last one removed. -/
def keepOnlyLastSystem : List ChatMessage → List ChatMessage
  | [] => []
  | m :: rest =>
    if m.role = .system ∧ hasSystem rest then keepOnlyLastSystem rest
    else m :: keepOnlyLastSystem rest

lemma lastSys_none_of_not_hasSystem :
    ∀ {l : List ChatMessage}, hasSystem l = false → lastSystemContent l = Option.none := by
  intro l
  induction l with
  | nil => intro; rfl
  | cons m rest ih =>
    intro h
    simp only [hasSystem, Bool.or_eq_false_iff, beq_eq_false_iff_ne, ne_eq] at h
    simp [lastSystemContent, ih h.2, h.1]

lemma lastSys_isSome_of_hasSystem :
    ∀ {l : List ChatMessage}, hasSystem l = true →
      ∃ s, lastSystemContent l = some s := by
  intro l
  induction l with
  | nil => intro h; exact absurd h (by simp [hasSystem])
  | cons m rest ih =>
    intro h
    by_cases hr : hasSystem rest = true
    · obtain ⟨s, hs⟩ := ih hr
      exact ⟨s, by simp [lastSystemContent, hs]⟩
    · have hm : m.role = .system := by
        simp only [hasSystem, Bool.or_eq_true, beq_iff_eq] at h
        exact h.resolve_right hr
      refine ⟨m.content, ?_⟩
      simp [lastSystemContent, lastSys_none_of_not_hasSystem (by simpa using hr), hm]

lemma hasSystem_keepOnlyLastSystem (l : List ChatMessage) :
    hasSystem (keepOnlyLastSystem l) = hasSystem l := by
  induction l with
  | nil => rfl
  | cons m rest ih =>
    by_cases hm : m.role = .system
    · by_cases hr : hasSystem rest = true
      · simp [keepOnlyLastSystem, hm, hr, ih, hasSystem]
      · simp [keepOnlyLastSystem, hm, hr, hasSystem, ih]
    · simp [keepOnlyLastSystem, hm, hasSystem, ih]

lemma lastSys_keepOnlyLastSystem (l : List ChatMessage) :
    lastSystemContent (keepOnlyLastSystem l) = lastSystemContent l := by
  induction l with
  | nil => rfl
  | cons m rest ih =>
    by_cases hm : m.role = .system
    · by_cases hr : hasSystem rest = true
      · obtain ⟨s, hs⟩ := lastSys_isSome_of_hasSystem hr
        simp [keepOnlyLastSystem, hm, hr, ih, lastSystemContent, hs]
      · simp [keepOnlyLastSystem, hm, hr, lastSystemContent, ih]
    · simp [keepOnlyLastSystem, hm, lastSystemContent, ih]

lemma dialogue_keepOnlyLastSystem (l : List ChatMessage) :
    dialogueLines (keepOnlyLastSystem l) = dialogueLines l := by
  induction l with
  | nil => rfl
  | cons m rest ih =>
    by_cases hm : m.role = .system
    · by_cases hr : hasSystem rest = true
      · simp [keepOnlyLastSystem, hm, hr, ih, dialogueLines]
      · simp [keepOnlyLastSystem, hm, hr, dialogueLines, ih]
    · simp [keepOnlyLastSystem, hm, dialogueLines, ih]

lemma hasSystem_of_two_le_countSystem {l : List ChatMessage}
    (h : 2 ≤ countSystem l) : hasSystem l = true := by
  induction l with
  | nil => simp [countSystem] at h
  | cons m rest ih =>
    by_cases hm : m.role = .system
    · simp [hasSystem, hm]
    · rw [countSystem, if_neg hm, Nat.zero_add] at h
      simp [hasSystem, hm, ih h]

/-- C10: with more than one system message, only the last one matters —
the query equals the query of the list with all earlier system messages
removed, and it is assembled from exactly the last system message's
content (context line) and the non-system messages' dialogue lines. -/
theorem format_messages_last_system_wins (messages : List ChatMessage)
    (h2 : 2 ≤ countSystem messages) :
    format_messages_as_query messages =
      format_messages_as_query (keepOnlyLastSystem messages) ∧
    format_messages_as_query messages =
      assembleQuery (contextParts (lastSystemContent messages))
        (dialogueLines messages) := by
  have hsys : hasSystem messages = true := hasSystem_of_two_le_countSystem h2
  have hns1 : ∀ m, messages = [m] → ¬ m.role = .user := by
    intro m hm
    subst hm
    by_cases h : m.role = .system <;> simp [countSystem, h] at h2
  have hns2 : ∀ m, keepOnlyLastSystem messages = [m] → ¬ m.role = .user := by
    intro m hm hu
    have h : hasSystem (keepOnlyLastSystem messages) = true := by
      rw [hasSystem_keepOnlyLastSystem]; exact hsys
    rw [hm] at h
    simp only [hasSystem, Bool.or_eq_true, beq_iff_eq] at h
    rcases h with h | h
    · rw [hu] at h; exact absurd h (by simp)
    · exact absurd h (by simp [hasSystem])
  have e1 := format_eq_assemble messages hns1
  have e2 := format_eq_assemble (keepOnlyLastSystem messages) hns2
  refine ⟨?_, e1⟩
  rw [e1, e2, lastSys_keepOnlyLastSystem, dialogue_keepOnlyLastSystem]

/-- Witness for C10 on a concrete three-message list with two system
messages. -/
theorem format_messages_last_system_wins_witness :
    format_messages_as_query [⟨.system, "a"⟩, ⟨.system, "b"⟩, ⟨.user, "x"⟩] =
      format_messages_as_query
        (keepOnlyLastSystem [⟨.system, "a"⟩, ⟨.system, "b"⟩, ⟨.user, "x"⟩]) :=
  (format_messages_last_system_wins
    [⟨.system, "a"⟩, ⟨.system, "b"⟩, ⟨.user, "x"⟩] (by decide)).1

/-- Embedding of `DiffBlock` (`perplexity_models.py`); the `field` tag is
never consumed by the extractor and is omitted. -/
structure DiffBlock where
  patches : List JSONPatch

/-- Embedding of `PerplexityBlock` restricted to the fields the
extractor consumes (`plan_block`/`markdown_block` are carried through
unparsed and never read). -/
structure PerplexityBlock where
  intended_usage : String
  diff_block : Option DiffBlock

/-- Embedding of `PerplexitySSEEvent` restricted to the fields the
extractor consumes. -/
structure PerplexitySSEEvent where
  display_model : String
  text_completed : Bool
  blocks : List PerplexityBlock

/-- Embedding of `StreamingState` (`perplexity_models.py`).  The Python
dict of aggregators is an association list in insertion order;
`completion_id` and `created` are environment-generated values carried
through untouched. -/
structure StreamingState where
  completion_id : String
  created : Int
  model : String
  aggregators : List (String × ChunkAggregator)
  has_sent_role : Bool
  text_completed : Bool

/-- A fresh `StreamingState()` with the given generated identifier and
timestamp. -/
def StreamingState.init (cid : String) (created : Int) : StreamingState :=
  ⟨cid, created, "", [], false, false⟩

/-- Dict membership/lookup on the aggregator map. -/
def lookupAgg : List (String × ChunkAggregator) → String → Option ChunkAggregator
  | [], _ => Option.none
  | (k, a) :: rest, key => if k = key then some a else lookupAgg rest key

/-- Dict store on the aggregator map: overwrite in place, or append a
new key at the end (Python dicts keep insertion order). -/
def setAgg : List (String × ChunkAggregator) → String → ChunkAggregator →
    List (String × ChunkAggregator)
  | [], key, a => [(key, a)]
  | (k, b) :: rest, key, a =>
    if k = key then (k, a) :: rest else (k, b) :: setAgg rest key a

/-- Prefix test on strings via character lists. -/
def strStarts (pat s : String) : Bool :=
  startsWithL pat.toList s.toList

/-- Suffix test on strings via reversed character lists. -/
def strEnds (pat s : String) : Bool :=
  startsWithL pat.toList.reverse s.toList.reverse

/-- Embedding of `PerplexitySSEParser.is_markdown_block`
(`sse_parser.py`): the sentinel tag, or any tag with the fixed
`ask_text_` head and `_markdown` tail. -/
def is_markdown_block (intended_usage : String) : Bool :=
  if intended_usage = "" then false
  else if intended_usage = "ask_text_markdown" then true
  else strStarts "ask_text_" intended_usage && strEnds "_markdown" intended_usage

/-- Result of running one aggregator over a patch list: the final
aggregator, the fragments yielded (the truthy returned texts, in order)
and whether a patch application raised. -/
structure BlockResult where
  agg : ChunkAggregator
  yields : List String
  raised : Bool

/-- The patch loop of `ChunkExtractor._process_block`: apply each patch
in order, yielding every truthy (`if new_text:`) returned fragment; a
raised exception aborts the loop after the fragments already yielded. -/
def applyPatchesYield (agg : ChunkAggregator) : List JSONPatch → BlockResult
  | [] => ⟨agg, [], false⟩
  | p :: ps =>
    match agg.apply_patch p with
    | (agg2, .error _) => ⟨agg2, [], true⟩
    | (agg2, .ok new_text) =>
      let r := applyPatchesYield agg2 ps
      match new_text with
      | some t => if t = "" then ⟨r.agg, r.yields, r.raised⟩
                  else ⟨r.agg, t :: r.yields, r.raised⟩
      | Option.none => ⟨r.agg, r.yields, r.raised⟩

/-- Embedding of `ChunkExtractor._process_block`: blocks without a
`diff_block` yield nothing; otherwise fetch-or-create the aggregator for
the block's usage tag, run the patches and store the mutated aggregator
back (on a raise the dict still holds the state mutated so far). -/
def processBlock (st : StreamingState) (block : PerplexityBlock) :
    StreamingState × List String × Bool :=
  match block.diff_block with
  | Option.none => (st, [], false)
  | some db =>
    let agg0 :=
      match lookupAgg st.aggregators block.intended_usage with
      | some a => a
      | Option.none => ChunkAggregator.init
    let r := applyPatchesYield agg0 db.patches
    ({ st with aggregators := setAgg st.aggregators block.intended_usage r.agg },
      r.yields, r.raised)

/-- Processing of the filtered markdown blocks in order; a raise aborts
the remaining blocks after the fragments already yielded. -/
def processBlocks (st : StreamingState) : List PerplexityBlock →
    StreamingState × List String × Bool
  | [] => (st, [], false)
  | b :: bs =>
    let rb := processBlock st b
    if rb.2.2 then (rb.1, rb.2.1, true)
    else
      let rest := processBlocks rb.1 bs
      (rest.1, rb.2.1 ++ rest.2.1, rest.2.2)

/-- Embedding of `ChunkExtractor.process_event`.  The argument models
the decode result of `PerplexitySSEParser.parse_event_data`: `none` is a
decode failure (`if not event: return`, nothing yielded, state
untouched).  Otherwise: set the session completion flag when the event's
`text_completed` is true, set the model when still empty and the event
carries a non-empty display model, then process the markdown blocks. -/
def process_event (st : StreamingState) (ev : Option PerplexitySSEEvent) :
    StreamingState × List String × Bool :=
  match ev with
  | Option.none => (st, [], false)
  | some event =>
    let st1 := if event.text_completed then { st with text_completed := true } else st
    let st2 :=
      if st1.model = "" ∧ event.display_model ≠ "" then
        { st1 with model := event.display_model }
      else st1
    processBlocks st2 (event.blocks.filter fun b => is_markdown_block b.intended_usage)

/-- The loop body of the adapter's `chunk_generator`
(`perplexity_adapter.py::stream`): feed each upstream event to one
extractor, yield each resulting fragment guarded by `if chunk:`; an
exception from `process_event` ends the stream after the fragments
already yielded. -/
def streamGo (st : StreamingState) : List (Option PerplexitySSEEvent) → List String
  | [] => []
  | ev :: evs =>
    let r := process_event st ev
    (r.2.1.filter fun c => c ≠ "") ++ (if r.2.2 then [] else streamGo r.1 evs)

/-- The fragment sequence produced by `PerplexityAdapter.stream` for a
given upstream event sequence (each element already decoded, `none` for
a decode failure), starting from a fresh extractor. -/
def stream_fragments (events : List (Option PerplexitySSEEvent)) : List String :=
  streamGo (StreamingState.init "chatcmpl-x" 0) events

lemma apply_patch_is_complete_mono (agg : ChunkAggregator) (p : JSONPatch)
    (h : agg.is_complete = true) : (agg.apply_patch p).1.is_complete = true := by
  unfold ChunkAggregator.apply_patch
  split
  · simpa using h
  · split
    · split
      · rfl
      · split
        · dsimp only
          split
          · simpa using h
          · split
            · split <;> simpa using h
            · simpa using h
        · simpa using h
    · simpa using h

lemma processBlock_model (st : StreamingState) (b : PerplexityBlock) :
    (processBlock st b).1.model = st.model := by
  unfold processBlock
  split <;> rfl

lemma processBlock_text_completed (st : StreamingState) (b : PerplexityBlock) :
    (processBlock st b).1.text_completed = st.text_completed := by
  unfold processBlock
  split <;> rfl

lemma processBlocks_model (st : StreamingState) (bs : List PerplexityBlock) :
    (processBlocks st bs).1.model = st.model := by
  induction bs generalizing st with
  | nil => rfl
  | cons b bs ih =>
    simp only [processBlocks]
    split
    · exact processBlock_model st b
    · exact (ih (processBlock st b).1).trans (processBlock_model st b)

lemma processBlocks_text_completed (st : StreamingState) (bs : List PerplexityBlock) :
    (processBlocks st bs).1.text_completed = st.text_completed := by
  induction bs generalizing st with
  | nil => rfl
  | cons b bs ih =>
    simp only [processBlocks]
    split
    · exact processBlock_text_completed st b
    · exact (ih (processBlock st b).1).trans (processBlock_text_completed st b)

lemma process_event_sets_model (st : StreamingState) (e : PerplexitySSEEvent)
    (h : st.model = "") (hd : e.display_model ≠ "") :
    (process_event st (some e)).1.model = e.display_model := by
  by_cases htc : e.text_completed <;>
    simp [process_event, processBlocks_model, htc, h, hd]

/-- C6: completion is monotonic — an aggregator whose `is_complete` is
true keeps it true across any further patch, and a session whose
`text_completed` flag is true keeps it true across any further event
(decoded or failed-decode). -/
theorem completion_monotonic :
    (∀ (agg : ChunkAggregator) (p : JSONPatch), agg.is_complete = true →
      (agg.apply_patch p).1.is_complete = true) ∧
    (∀ (st : StreamingState) (ev : Option PerplexitySSEEvent),
      st.text_completed = true → (process_event st ev).1.text_completed = true) := by
  refine ⟨apply_patch_is_complete_mono, ?_⟩
  intro st ev h
  cases ev with
  | none => exact h
  | some event =>
    simp only [process_event]
    rw [processBlocks_text_completed]
    split <;> (try split) <;> simp_all

/-- Witness for C6: a completed aggregator hit by a `remove` patch, and a
completed session fed a failed-decode event. -/
theorem completion_monotonic_witness :
    ((ChunkAggregator.mk ["x"] true).apply_patch
        ⟨.remove, "/chunks/0", .none⟩).1.is_complete = true ∧
    (process_event ⟨"id", 0, "", [], false, true⟩ Option.none).1.text_completed = true :=
  ⟨completion_monotonic.1 (ChunkAggregator.mk ["x"] true)
      ⟨.remove, "/chunks/0", .none⟩ rfl,
    completion_monotonic.2 ⟨"id", 0, "", [], false, true⟩ Option.none rfl⟩

/-- C7: the session model name is write-once — a non-empty stored model
survives any further event, and feeding two decoded events with
different non-empty display models to a fresh-model session leaves the
first event's display model stored. -/
theorem model_write_once :
    (∀ (st : StreamingState) (ev : Option PerplexitySSEEvent),
      st.model ≠ "" → (process_event st ev).1.model = st.model) ∧
    (∀ (st : StreamingState) (e1 e2 : PerplexitySSEEvent),
      st.model = "" → e1.display_model ≠ "" → e2.display_model ≠ "" →
      e1.display_model ≠ e2.display_model →
      (process_event (process_event st (some e1)).1 (some e2)).1.model
        = e1.display_model) := by
  have hA : ∀ (st : StreamingState) (ev : Option PerplexitySSEEvent),
      st.model ≠ "" → (process_event st ev).1.model = st.model := by
    intro st ev h
    cases ev with
    | none => rfl
    | some event =>
      by_cases htc : event.text_completed <;>
        simp [process_event, processBlocks_model, htc, h]
  refine ⟨hA, ?_⟩
  intro st e1 e2 hst hd1 hd2 hne
  have h1 := process_event_sets_model st e1 hst hd1
  have h2 := hA (process_event st (some e1)).1 (some e2) (by rw [h1]; exact hd1)
  rw [h2, h1]

/-- Witness for C7: a fresh session fed two events with display models
`"gpt"` then `"claude"` keeps `"gpt"`; a session already holding `"m"`
keeps it across a further event. -/
theorem model_write_once_witness :
    (process_event (process_event (StreamingState.init "id" 0)
        (some ⟨"gpt", false, []⟩)).1 (some ⟨"claude", false, []⟩)).1.model = "gpt" ∧
    (process_event ⟨"id", 0, "m", [], false, false⟩ Option.none).1.model = "m" :=
  ⟨model_write_once.2 (StreamingState.init "id" 0) ⟨"gpt", false, []⟩
      ⟨"claude", false, []⟩ rfl (by decide) (by decide) (by decide),
    model_write_once.1 ⟨"id", 0, "m", [], false, false⟩ Option.none (by decide)⟩

/-- C9: every fragment the adapter's `stream()` produces is a non-empty
string, for every upstream event sequence (absent values are not
representable in the fragment sequence: each element is a `String`
guarded by the `if chunk:` filter). -/
theorem stream_fragments_nonempty (events : List (Option PerplexitySSEEvent)) :
    ∀ c ∈ stream_fragments events, c ≠ "" := by
  unfold stream_fragments
  generalize StreamingState.init "chatcmpl-x" 0 = st
  induction events generalizing st with
  | nil => intro c hc; simp [streamGo] at hc
  | cons ev evs ih =>
    intro c hc
    simp only [streamGo, List.mem_append] at hc
    rcases hc with hc | hc
    · simpa using (List.mem_filter.mp hc).2
    · rcases hhc : (process_event st ev).2.2 with _ | _
      · rw [hhc] at hc
        simp only [if_neg Bool.false_ne_true] at hc
        exact ih (process_event st ev).1 c hc
      · rw [hhc] at hc
        simp at hc

/-- Witness for C9 on a one-event stream carrying one chunk `"hi"`. -/
theorem stream_fragments_nonempty_witness :
    stream_fragments [some ⟨"", false,
        [⟨"ask_text_markdown", some ⟨[⟨.add, "/chunks/0", .str "hi"⟩]⟩⟩]⟩] = ["hi"] ∧
    "hi" ≠ "" :=
  ⟨by decide,
    stream_fragments_nonempty [some ⟨"", false,
        [⟨"ask_text_markdown", some ⟨[⟨.add, "/chunks/0", .str "hi"⟩]⟩⟩]⟩] "hi"
      (by decide)⟩

/-- Embedding of `DeltaContent` (`openai_models.py`): `role` is either
absent or the literal `"assistant"`. -/
structure DeltaContent where
  role : Option String
  content : Option String
deriving DecidableEq

/-- Embedding of `ChunkChoice`; the constant-`None` `logprobs` field is
omitted. -/
structure ChunkChoice where
  index : Nat
  delta : DeltaContent
  finish_reason : Option String
deriving DecidableEq

/-- Embedding of `ChatCompletionChunk` restricted to the fields the
formatter sets (`object` is the constant `"chat.completion.chunk"`,
`usage` the constant `None`). -/
structure ChatCompletionChunk where
  id : String
  created : Int
  model : String
  choices : List ChunkChoice
deriving DecidableEq

/-- Embedding of `format_openai_chunk` (`stream_formatter.py`): one
choice at index 0 with the given delta and finish reason. -/
def format_openai_chunk (completion_id : String) (created : Int) (model : String)
    (content : Option String) (role : Option String)
    (finish_reason : Option String) : ChatCompletionChunk :=
  { id := completion_id, created := created, model := model,
    choices := [⟨0, ⟨role, content⟩, finish_reason⟩] }

/-- One SSE frame produced by the stream formatter: a `data:` frame
carrying one serialized chunk (`format_sse_event`), or the terminal
`data: [DONE]` marker (`format_sse_done`).  A formatter call returning
the empty string corresponds to the empty frame list; the
`role="assistant"` marker of the claim is the `role` field of an emitted
delta (string contents are JSON-escaped inside frames, so no spurious
marker can arise from content text). -/
inductive StreamItem where
  | chunk : ChatCompletionChunk → StreamItem
  | done : StreamItem
deriving DecidableEq

/-- Embedding of the mutable `StreamFormatter` state
(`stream_formatter.py`): model name, generated completion id, creation
timestamp and the one-shot role flag. -/
structure StreamFormatter where
  model : String
  completion_id : String
  created : Int
  has_sent_role : Bool
deriving DecidableEq

/-- A freshly constructed `StreamFormatter(model)` with its generated
identifier and timestamp. -/
def StreamFormatter.init (model cid : String) (created : Int) : StreamFormatter :=
  ⟨model, cid, created, false⟩

/-- Embedding of `StreamFormatter.format_role_chunk`: empty output when
the role was already sent, otherwise flip the flag and emit the
role-carrying delta frame. -/
def StreamFormatter.format_role_chunk (f : StreamFormatter) :
    StreamFormatter × List StreamItem :=
  if f.has_sent_role then (f, [])
  else
    ({ f with has_sent_role := true },
      [.chunk (format_openai_chunk f.completion_id f.created f.model
        Option.none (some "assistant") Option.none)])

/-- Embedding of `StreamFormatter.format_content_chunk`: emit the role
frame first when not yet sent, then the content-carrying delta frame. -/
def StreamFormatter.format_content_chunk (f : StreamFormatter) (content : String) :
    StreamFormatter × List StreamItem :=
  let pre := if f.has_sent_role then (f, ([] : List StreamItem))
             else f.format_role_chunk
  (pre.1, pre.2 ++ [.chunk (format_openai_chunk f.completion_id f.created f.model
      (some content) Option.none Option.none)])

/-- Embedding of `StreamFormatter.format_final_chunk`: the
`finish_reason="stop"` frame followed by the `[DONE]` marker. -/
def StreamFormatter.format_final_chunk (f : StreamFormatter) :
    StreamFormatter × List StreamItem :=
  (f, [.chunk (format_openai_chunk f.completion_id f.created f.model
      Option.none Option.none (some "stop")), .done])

/-- A call to one of the three formatter methods. -/
inductive FmtCall where
  | role : FmtCall
  | content : String → FmtCall
  | final : FmtCall

/-- Run a sequence of formatter calls on one instance, concatenating all
emitted frames (the concatenation of all returned strings). -/
def runCalls (f : StreamFormatter) : List FmtCall → StreamFormatter × List StreamItem
  | [] => (f, [])
  | c :: cs =>
    let step :=
      match c with
      | .role => f.format_role_chunk
      | .content s => f.format_content_chunk s
      | .final => f.format_final_chunk
    let rest := runCalls step.1 cs
    (rest.1, step.2 ++ rest.2)

/-- True when the frame is a chunk whose delta carries
`role="assistant"`. -/
def isRoleMarker : StreamItem → Bool
  | .chunk c => c.choices.any fun ch => ch.delta.role == some "assistant"
  | .done => false

/-- Number of `role="assistant"` markers in a frame sequence. -/
def roleCount : List StreamItem → Nat
  | [] => 0
  | it :: rest => (if isRoleMarker it then 1 else 0) + roleCount rest

lemma roleCount_append (a b : List StreamItem) :
    roleCount (a ++ b) = roleCount a + roleCount b := by
  induction a with
  | nil => simp [roleCount]
  | cons it a ih => simp [roleCount, ih, Nat.add_assoc]

lemma runCalls_sent (f : StreamFormatter) (hs : f.has_sent_role = true)
    (cs : List FmtCall) : roleCount (runCalls f cs).2 = 0 := by
  induction cs with
  | nil => simp [runCalls, roleCount]
  | cons c cs ih =>
    cases c <;>
      simp [runCalls, StreamFormatter.format_role_chunk,
        StreamFormatter.format_content_chunk, StreamFormatter.format_final_chunk,
        hs, roleCount_append, ih, roleCount, isRoleMarker, format_openai_chunk]

lemma runCalls_unsent (f : StreamFormatter) (hs : f.has_sent_role = false)
    (cs : List FmtCall) : roleCount (runCalls f cs).2 ≤ 1 := by
  have hsent : ({ f with has_sent_role := true } : StreamFormatter).has_sent_role
      = true := rfl
  cases cs with
  | nil => simp [runCalls, roleCount]
  | cons c cs =>
    cases c with
    | role =>
      simp [runCalls, StreamFormatter.format_role_chunk, hs, roleCount_append,
        runCalls_sent _ hsent cs, roleCount, isRoleMarker, format_openai_chunk]
    | content s =>
      simp [runCalls, StreamFormatter.format_content_chunk,
        StreamFormatter.format_role_chunk, hs, roleCount_append,
        runCalls_sent _ hsent cs, roleCount, isRoleMarker, format_openai_chunk]
    | final =>
      simp only [runCalls, StreamFormatter.format_final_chunk, roleCount_append]
      simpa [roleCount, isRoleMarker, format_openai_chunk] using
        runCalls_unsent f hs cs

/-- C8: the role marker appears at most once — for every call sequence
on a formatter whose one-shot flag is still clear, the concatenated
output carries `role="assistant"` at most once; and on an instance that
has already sent the role, `format_role_chunk` returns the empty
output and leaves the state unchanged. -/
theorem role_marker_at_most_once :
    (∀ (f : StreamFormatter) (calls : List FmtCall), f.has_sent_role = false →
      roleCount (runCalls f calls).2 ≤ 1) ∧
    (∀ f : StreamFormatter, f.has_sent_role = true →
      f.format_role_chunk = (f, [])) := by
  refine ⟨fun f cs hs => runCalls_unsent f hs cs, fun f hs => ?_⟩
  simp [StreamFormatter.format_role_chunk, hs]

/-- Witness for C8: a fresh formatter run through two role calls, a
content call and the final call; and a spent formatter's role call. -/
theorem role_marker_at_most_once_witness :
    roleCount (runCalls (StreamFormatter.init "m" "id" 0)
      [.role, .role, .content "a", .final]).2 ≤ 1 ∧
    (StreamFormatter.mk "m" "id" 0 true).format_role_chunk
      = (StreamFormatter.mk "m" "id" 0 true, []) :=
  ⟨role_marker_at_most_once.1 (StreamFormatter.init "m" "id" 0)
      [.role, .role, .content "a", .final] rfl,
    role_marker_at_most_once.2 (StreamFormatter.mk "m" "id" 0 true) rfl⟩

end PerplexityScrape
